import Mathlib

/-
Verification of the opencog-core AtomSpace and distributed-coordination
sources (src/opencog-core/src/atomspace.c, src/opencog-core/src/distributed.c)
against their natural-language specification.

The C heap is modelled as association lists from addresses (Nat) to records;
machine integers are Nat/Int with explicit reduction modulo 2^w where the C
type can wrap (uint32 reference counts, the uint64 id counter).  Pointers are
`Option Nat` (none = NULL).  Dereferencing a dangling address is undefined
behaviour in C; the model totalises those branches as no-ops, and every
theorem below only exercises live or null pointers.
-/

set_option linter.unusedVariables false

namespace OpencogCore

/-- Association-list heap lookup: the value stored at address `k`, if any.
The C heap binds at most one live object per address. -/
def findEntry {α : Type} (l : List (Nat × α)) (k : Nat) : Option α :=
  (l.find? (fun p => p.1 == k)).map (fun p => p.2)

/-- In-place update of the heap object at address `k`. -/
def setEntry {α : Type} (l : List (Nat × α)) (k : Nat) (v : α) : List (Nat × α) :=
  l.map (fun p => if p.1 == k then (k, v) else p)

/-- Deallocation (C `free`) of the heap object at address `k`. -/
def removeEntry {α : Type} (l : List (Nat × α)) (k : Nat) : List (Nat × α) :=
  l.filter (fun p => p.1 != k)

/-- `atom_type_t` from include/atom.h.  (`ATOM_TYPE_VARIABLE` is rendered
`varAtom` because its literal name is a Lean keyword.) -/
inductive AtomType where
  | concept
  | predicate
  | link
  | node
  | varAtom
  | evaluation
  | execution
  | custom
deriving DecidableEq

/-- `truth_value_t`: the two C doubles are modelled as rationals; the sources
only ever store and reload them, so the embedding is exact. -/
structure TruthValue where
  strength : ℚ
  confidence : ℚ
deriving DecidableEq

/-- `attention_value_t`: three int16_t components, modelled as integers
(the C prototypes take int16_t, so stored values are exactly the arguments). -/
structure AttentionValue where
  sti : Int
  lti : Int
  vlti : Int
deriving DecidableEq

/-- `struct atom` from include/atom.h.  `user_data` (an opaque pointer the
sources never touch) is omitted.  `outgoing`/`incoming` hold addresses of
`atom_handle_t` objects. -/
structure Atom where
  id : Nat
  type : AtomType
  name : Option String
  tv : TruthValue
  av : AttentionValue
  outgoing : List Nat
  incoming : List Nat
  creation_time : Nat
  last_access_time : Nat
deriving DecidableEq

/-- `struct atom_handle`: id, address of the `atom_t`, and a uint32 refcount. -/
structure AtomHandle where
  id : Nat
  atomRef : Nat
  refCount : Nat
deriving DecidableEq

/-- `atomspace_t`.  The C hash table (`lookup_table`) inserts at the head of a
bucket and looks up by key equality; with process-unique keys this collapses
to an association list with head insertion.  `atoms` is the insertion-ordered
array of handle addresses (`atom_capacity` only sizes reallocations and has no
observable effect). -/
structure Atomspace where
  atoms : List Nat
  lookup_table : List (Nat × Nat)
  total_atoms_created : Nat
  total_atoms_deleted : Nat
  node_id : Nat
deriving DecidableEq

/-- Whole-machine state: the process-wide id counter (`next_atom_id`, a uint64
statically initialised to 1), the heap of handle and atom objects (addresses
are abstract `Nat`s drawn from `nextAddr`), one atomspace, and the ambient
wall-clock second `now` returned by `time(NULL)`. -/
structure SysState where
  next_atom_id : Nat
  nextAddr : Nat
  handles : List (Nat × AtomHandle)
  atomsHeap : List (Nat × Atom)
  space : Atomspace
  now : Nat
deriving DecidableEq

/-- Process start (`next_atom_id = 1`) combined with `atomspace_create`:
empty handle array, empty lookup table, zeroed counters. -/
def atomspace_create (node_id : Nat) : SysState :=
  { next_atom_id := 1
    nextAddr := 0
    handles := []
    atomsHeap := []
    space := { atoms := [], lookup_table := [], total_atoms_created := 0,
               total_atoms_deleted := 0, node_id := node_id }
    now := 0 }

/-- The handle object stored at address `a`, if live. -/
def handleOf (s : SysState) (a : Nat) : Option AtomHandle :=
  findEntry s.handles a

/-- `handle->atom->...`: the atom record a live handle points at. -/
def atomOfHandle (s : SysState) (a : Nat) : Option Atom :=
  match handleOf s a with
  | some hd => findEntry s.atomsHeap hd.atomRef
  | none => none

def atomRefOf (s : SysState) (a : Nat) : Option Nat :=
  (handleOf s a).map (fun h => h.atomRef)

def refCountOf (s : SysState) (a : Nat) : Option Nat :=
  (handleOf s a).map (fun h => h.refCount)

def idOf (s : SysState) (a : Nat) : Option Nat :=
  (handleOf s a).map (fun h => h.id)

def outgoingOf (s : SysState) (a : Nat) : Option (List Nat) :=
  (atomOfHandle s a).map (fun x => x.outgoing)

def incomingOf (s : SysState) (a : Nat) : Option (List Nat) :=
  (atomOfHandle s a).map (fun x => x.incoming)

def tvOf (s : SysState) (a : Nat) : Option TruthValue :=
  (atomOfHandle s a).map (fun x => x.tv)

def avOf (s : SysState) (a : Nat) : Option AttentionValue :=
  (atomOfHandle s a).map (fun x => x.av)

/-- `generate_atom_id` (atomspace.c:17): returns the current counter value and
post-increments it (uint64 arithmetic). -/
def generate_atom_id (s : SysState) : Nat × SysState :=
  (s.next_atom_id, { s with next_atom_id := (s.next_atom_id + 1) % 2 ^ 64 })

/-- `atom_create` (atomspace.c:110): allocates the atom record and its handle,
appends the handle to the atomspace's insertion-ordered array, bumps
`total_atoms_created` and registers the id in the lookup table.  Returns the
new handle's address.  (The `!space` NULL guard is unreachable here because the
machine state carries the atomspace by value.) -/
def atom_create (s : SysState) (t : AtomType) (name : Option String) : Nat × SysState :=
  let idAnds := generate_atom_id s
  let id := idAnds.1
  let s1 := idAnds.2
  let atomAddr := s1.nextAddr
  let hAddr := s1.nextAddr + 1
  let a : Atom :=
    { id := id, type := t, name := name
      tv := { strength := 1, confidence := 0 }
      av := { sti := 0, lti := 0, vlti := 0 }
      outgoing := [], incoming := []
      creation_time := s1.now, last_access_time := s1.now }
  let h : AtomHandle := { id := id, atomRef := atomAddr, refCount := 1 }
  (hAddr,
    { s1 with
      nextAddr := s1.nextAddr + 2
      handles := (hAddr, h) :: s1.handles
      atomsHeap := (atomAddr, a) :: s1.atomsHeap
      space :=
        { s1.space with
          atoms := s1.space.atoms ++ [hAddr]
          total_atoms_created := (s1.space.total_atoms_created + 1) % 2 ^ 64
          lookup_table := (id, hAddr) :: s1.space.lookup_table } })

/-- `atom_retain` (atomspace.c:176): atomically increments the uint32 refcount;
NULL is a no-op.  (A dangling address would be undefined behaviour in C and is
modelled as a no-op; no theorem exercises it.) -/
def atom_retain (s : SysState) (h : Option Nat) : SysState :=
  match h with
  | none => s
  | some addr =>
    match findEntry s.handles addr with
    | some hd =>
      let hd' := { hd with refCount := (hd.refCount + 1) % 2 ^ 32 }
      { s with handles := setEntry s.handles addr hd' }
    | none => s

/-- One iteration of the `atom_create_link` loop (atomspace.c:161):
store target `t` into slot `i` of the link's outgoing array, retain it, then
append the link handle to the target atom's incoming array. -/
def addTarget (s : SysState) (hAddr t : Nat) : SysState :=
  let s1 :=
    match findEntry s.handles hAddr with
    | some lh =>
      match findEntry s.atomsHeap lh.atomRef with
      | some la =>
        let la' := { la with outgoing := la.outgoing ++ [t] }
        { s with atomsHeap := setEntry s.atomsHeap lh.atomRef la' }
      | none => s
    | none => s
  let s2 := atom_retain s1 (some t)
  match findEntry s2.handles t with
  | some th =>
    match findEntry s2.atomsHeap th.atomRef with
    | some ta =>
      let ta' := { ta with incoming := ta.incoming ++ [hAddr] }
      { s2 with atomsHeap := setEntry s2.atomsHeap th.atomRef ta' }
    | none => s2
  | none => s2

/-- `atom_create_link` (atomspace.c:147): creates a nameless atom, then for
each outgoing slot in order runs the loop body `addTarget`. -/
def atom_create_link (s : SysState) (t : AtomType) (outgoing : List Nat) : Nat × SysState :=
  let created := atom_create s t none
  let hAddr := created.1
  (hAddr, outgoing.foldl (fun acc tg => addTarget acc hAddr tg) created.2)

/-- Body of `atom_release` (atomspace.c:181) with the recursive call abstracted
as `rel`: decrement the uint32 refcount; on zero, release every outgoing
target and free the atom and handle objects.  Note that the source neither
removes the handle from its targets' incoming arrays nor removes the id from
the lookup table nor clears the atomspace's array slot. -/
def releaseStep (rel : SysState → Option Nat → SysState) (s : SysState)
    (h : Option Nat) : SysState :=
  match h with
  | none => s
  | some addr =>
    match findEntry s.handles addr with
    | none => s
    | some hd =>
      let rc := (hd.refCount + 2 ^ 32 - 1) % 2 ^ 32
      if rc = 0 then
        match findEntry s.atomsHeap hd.atomRef with
        | none => s
        | some a =>
          let s' := a.outgoing.foldl (fun acc t => rel acc (some t)) s
          { s' with atomsHeap := removeEntry s'.atomsHeap hd.atomRef,
                    handles := removeEntry s'.handles addr }
      else
        { s with handles := setEntry s.handles addr { hd with refCount := rc } }

/-- `atom_release`, with fuel bounding the recursion depth (the C recursion
terminates on any refcount-correct acyclic heap; every use below supplies
ample fuel). -/
def atom_release : Nat → SysState → Option Nat → SysState
  | 0 => fun s _ => s
  | fuel + 1 => releaseStep (atom_release fuel)

/-- `atom_set_tv` (atomspace.c:200): stores both components verbatim and
touches `last_access_time`; NULL handle is a no-op. -/
def atom_set_tv (s : SysState) (h : Option Nat) (strength confidence : ℚ) : SysState :=
  match h with
  | none => s
  | some addr =>
    match findEntry s.handles addr with
    | some hd =>
      match findEntry s.atomsHeap hd.atomRef with
      | some a =>
        let a' := { a with tv := { strength := strength, confidence := confidence },
                           last_access_time := s.now }
        { s with atomsHeap := setEntry s.atomsHeap hd.atomRef a' }
      | none => s
    | none => s

/-- `atom_get_tv` (atomspace.c:208): `(0.0, 0.0)` for NULL, else the stored
truth value (also touching `last_access_time`). -/
def atom_get_tv (s : SysState) (h : Option Nat) : TruthValue × SysState :=
  match h with
  | none => ({ strength := 0, confidence := 0 }, s)
  | some addr =>
    match findEntry s.handles addr with
    | some hd =>
      match findEntry s.atomsHeap hd.atomRef with
      | some a =>
        let a' := { a with last_access_time := s.now }
        (a.tv, { s with atomsHeap := setEntry s.atomsHeap hd.atomRef a' })
      | none => ({ strength := 0, confidence := 0 }, s)
    | none => ({ strength := 0, confidence := 0 }, s)

/-- `atom_set_av` (atomspace.c:218). -/
def atom_set_av (s : SysState) (h : Option Nat) (sti lti vlti : Int) : SysState :=
  match h with
  | none => s
  | some addr =>
    match findEntry s.handles addr with
    | some hd =>
      match findEntry s.atomsHeap hd.atomRef with
      | some a =>
        let a' := { a with av := { sti := sti, lti := lti, vlti := vlti },
                           last_access_time := s.now }
        { s with atomsHeap := setEntry s.atomsHeap hd.atomRef a' }
      | none => s
    | none => s

/-- `atom_get_av` (atomspace.c:227): `(0, 0, 0)` for NULL, else the stored
attention value. -/
def atom_get_av (s : SysState) (h : Option Nat) : AttentionValue × SysState :=
  match h with
  | none => ({ sti := 0, lti := 0, vlti := 0 }, s)
  | some addr =>
    match findEntry s.handles addr with
    | some hd =>
      match findEntry s.atomsHeap hd.atomRef with
      | some a =>
        let a' := { a with last_access_time := s.now }
        (a.av, { s with atomsHeap := setEntry s.atomsHeap hd.atomRef a' })
      | none => ({ sti := 0, lti := 0, vlti := 0 }, s)
    | none => ({ sti := 0, lti := 0, vlti := 0 }, s)

/-- `atomspace_get_atom` (atomspace.c:237): hash-table lookup by id; the
returned handle is not retained. -/
def atomspace_get_atom (s : SysState) (id : Nat) : Option Nat :=
  findEntry s.space.lookup_table id

/-- The collection loop shared by `atomspace_get_atoms_by_type`,
`atomspace_get_atoms_by_name` and `atomspace_match_pattern`: scan the
insertion-ordered handle array, and for each slot whose atom satisfies the
predicate, append the handle to the result and retain it once.  (The C
functions run a first pass that only counts matches to size the result array;
it has no observable effect.) -/
def scanRetain (p : SysState → Nat → Bool) : SysState → List Nat → List Nat × SysState
  | s, [] => ([], s)
  | s, a :: rest =>
    if p s a then
      let s' := atom_retain s (some a)
      let res := scanRetain p s' rest
      (a :: res.1, res.2)
    else
      scanRetain p s rest

/-- The `by_type` match condition (atomspace.c:248):
`space->atoms[i] && space->atoms[i]->atom->type == type`. -/
def typeMatches (k : AtomType) (s : SysState) (a : Nat) : Bool :=
  match atomOfHandle s a with
  | some x => x.type == k
  | none => false

/-- The `by_name` match condition (atomspace.c:273): slot non-null, atom name
non-NULL and strcmp-equal to the query. -/
def nameMatches (nm : String) (s : SysState) (a : Nat) : Bool :=
  match atomOfHandle s a with
  | some x => x.name == some nm
  | none => false

/-- `atomspace_get_atoms_by_type` (atomspace.c:242). -/
def atomspace_get_atoms_by_type (s : SysState) (k : AtomType) : List Nat × SysState :=
  scanRetain (typeMatches k) s s.space.atoms

/-- `atomspace_get_atoms_by_name` (atomspace.c:268). -/
def atomspace_get_atoms_by_name (s : SysState) (nm : String) : List Nat × SysState :=
  scanRetain (nameMatches nm) s s.space.atoms

/-- `message_type_t` from include/distributed.h. -/
inductive MessageType where
  | atomCreate
  | atomUpdate
  | atomDelete
  | atomQuery
  | atomResponse
  | syncRequest
  | syncResponse
  | heartbeat
  | nodeJoin
  | nodeLeave
deriving DecidableEq

/-- `message_t`: payload is the byte sequence (`payload_size` = its length). -/
structure Message where
  type : MessageType
  source_node : Nat
  dest_node : Nat
  timestamp : Nat
  payload : List Nat
deriving DecidableEq

/-- `node_info_t`. -/
structure NodeInfo where
  node_id : Nat
  hostname : String
  port : Nat
  is_active : Bool
  last_heartbeat : Nat
deriving DecidableEq

/-- The `MSG_TYPE_HEARTBEAT` loop of `message_handler_thread_func`
(distributed.c:62): walk the node table, and at the first entry whose
`node_id` equals the message's source set `last_heartbeat` to the message
timestamp and `is_active` to true, then break.  No match leaves the table
untouched. -/
def heartbeatUpdate : List NodeInfo → Nat → Nat → List NodeInfo
  | [], _, _ => []
  | n :: rest, src, ts =>
    if n.node_id = src then
      { n with last_heartbeat := ts, is_active := true } :: rest
    else
      n :: heartbeatUpdate rest src ts

/-- One dispatch of `message_handler_thread_func` (distributed.c:59) restricted
to its effect on the node table: a Heartbeat updates the table; NodeJoin,
NodeLeave and the default case only invoke user callbacks, which never touch
the table. -/
def message_handler_step (nodes : List NodeInfo) (msg : Message) : List NodeInfo :=
  match msg.type with
  | MessageType.heartbeat => heartbeatUpdate nodes msg.source_node msg.timestamp
  | _ => nodes

/-- `message_queue_t` together with the contents of the underlying System V
queue: a kernel-FIFO list of `(mtype, bytes)` messages.  (`max_messages` is
stored but never enforced by the source.) -/
structure MessageQueue where
  max_messages : Nat
  max_message_size : Nat
  msgs : List (Int × List Nat)
deriving DecidableEq

/-- `message_queue_send` (distributed.c:334): rejects oversized data, encodes
the priority as the System V message type `priority + 1`, and enqueues with
`msgsnd`, which appends to the tail of the queue (a non-positive mtype is
rejected by the kernel with EINVAL). -/
def message_queue_send (mq : MessageQueue) (data : List Nat) (priority : Int) :
    Int × MessageQueue :=
  if data.length > mq.max_message_size then (-1, mq)
  else
    let mtype := priority + 1
    if mtype ≤ 0 then (-1, mq)
    else (0, { mq with msgs := mq.msgs ++ [(mtype, data)] })

/-- `message_queue_receive` (distributed.c:349): `msgrcv` with `msgtyp = 0`,
which per the System V semantics dequeues the FIRST message of the queue
irrespective of its mtype; the reported priority is `mtype - 1`.  A message
longer than the caller's buffer fails (E2BIG, no `MSG_NOERROR`) and stays
queued; an empty queue yields -1 on the non-blocking path (blocking on an
empty queue is outside this model, `timeout_ms` only selects the flag). -/
def message_queue_receive (mq : MessageQueue) (size : Nat) (timeout_ms : Int) :
    (Int × Option (List Nat × Int)) × MessageQueue :=
  match mq.msgs with
  | [] => ((-1, none), mq)
  | (mtype, data) :: rest =>
    if data.length > size then ((-1, none), mq)
    else (((data.length : Int), some (data, mtype - 1)), { mq with msgs := rest })

/-- `consensus_phase_t`. -/
inductive ConsensusPhase where
  | propose
  | accept
  | reject
  | commit
deriving DecidableEq

/-- `consensus_t`: `voted_nodes` lists the node ids recorded so far
(the C array is calloc'ed storage for them, `vote_count` its fill level). -/
structure Consensus where
  proposal_id : Nat
  phase : ConsensusPhase
  proposal_data : List Nat
  voted_nodes : List Nat
  vote_count : Nat
  required_votes : Nat
deriving DecidableEq

/-- `consensus_create` (distributed.c:371): phase Propose, copied payload,
no votes; `proposal_id` is the creation wall-clock second. -/
def consensus_create (proposal_data : List Nat) (required_votes : Nat)
    (now : Nat) : Consensus :=
  { proposal_id := now, phase := ConsensusPhase.propose
    proposal_data := proposal_data, voted_nodes := [], vote_count := 0
    required_votes := required_votes }

/-- `consensus_vote` (distributed.c:396): the source body is a TODO stub that
returns 0 without reading or writing the record. -/
def consensus_vote (this_node_id : Nat) (c : Consensus) (accept : Bool) :
    Consensus × Int :=
  (c, 0)

/-- `consensus_is_committed` (distributed.c:401). -/
def consensus_is_committed (c : Consensus) : Bool :=
  c.phase == ConsensusPhase.commit && c.required_votes ≤ c.vote_count

/-- The allocator discipline of the model: every heap address in use is below
`nextAddr`, so freshly allocated addresses never collide with live objects
(mirroring the fact that `malloc` never returns a live block). -/
def keysBound (s : SysState) : Prop :=
  (∀ p ∈ s.handles, p.1 < s.nextAddr) ∧ ∀ p ∈ s.atomsHeap, p.1 < s.nextAddr

instance (s : SysState) : Decidable (keysBound s) := by
  unfold keysBound
  exact inferInstance

/-- The target-registration loop of `atom_create_link` as a fold, so theorems
can speak about it by name. -/
def foldTargets (s : SysState) (L : Nat) (rem : List Nat) : SysState :=
  rem.foldl (fun acc tg => addTarget acc L tg) s

/-- One atom-creating API call: `atom_create` (a node, with kind and optional
name) or `atom_create_link` (a link over a sequence of handle addresses). -/
inductive CreationOp where
  | node : AtomType → Option String → CreationOp
  | link : AtomType → List Nat → CreationOp
deriving DecidableEq

/-- Execute one creation call against the machine. -/
def execOp (s : SysState) : CreationOp → SysState
  | CreationOp.node k nm => (atom_create s k nm).2
  | CreationOp.link k tgts => (atom_create_link s k tgts).2

/-- Execute a sequence of creation calls. -/
def runOps (s : SysState) : List CreationOp → SysState
  | [] => s
  | op :: rest => runOps (execOp s op) rest

/-- The ids of the atomspace's handles, in insertion order (0 — never a valid
id — as default for an unresolvable address; the invariant proofs show the
default is never used). -/
def spaceIds (s : SysState) : List Nat :=
  s.space.atoms.map (fun a => ((handleOf s a).map (fun h => h.id)).getD 0)

/-- Components of the machine state that the `atom_create_link` target loop
never changes: the allocator counters, the atomspace record, the heap key
sets, and every handle's id. -/
def Pres (s s' : SysState) : Prop :=
  s'.next_atom_id = s.next_atom_id ∧
  s'.nextAddr = s.nextAddr ∧
  s'.space = s.space ∧
  s'.handles.map (fun p => p.1) = s.handles.map (fun p => p.1) ∧
  s'.atomsHeap.map (fun p => p.1) = s.atomsHeap.map (fun p => p.1) ∧
  ∀ a, idOf s' a = idOf s a

/-- The id-allocation invariant after `n` creation calls: the counter reads
`n + 1`, the atomspace's ids are exactly `1, …, n` in insertion order, heap
addresses are bounded by the allocator, and every owned handle address is an
allocated address. -/
def IdInv (n : Nat) (s : SysState) : Prop :=
  s.next_atom_id = n + 1 ∧
  spaceIds s = List.range' 1 n ∧
  keysBound s ∧
  ∀ a ∈ s.space.atoms, a < s.nextAddr

/-- Truth-value clamping as the spec's words demand (I5: components are
clamped to [0,1] on assignment).  This operation appears nowhere in the
source; it is defined only to exhibit the divergence of `atom_set_tv`
from the specified behaviour. -/
def clamp01_spec (q : ℚ) : ℚ := max 0 (min 1 q)

/-- Concrete machine: one Concept atom named "TestConcept" (atom at address 0,
handle at address 1, id 1) in a fresh atomspace. -/
def exStateA : SysState :=
  (atom_create (atomspace_create 1) AtomType.concept (some "TestConcept")).2

/-- Concrete machine: two Concept atoms (handles at addresses 1 and 3,
ids 1 and 2). -/
def exStateAB : SysState :=
  (atom_create exStateA AtomType.concept (some "OtherConcept")).2

/-- Concrete machine: the two Concepts of `exStateAB` plus a Link atom over
both of them (link atom at address 4, link handle at address 5, id 3). -/
def exStateABL : SysState :=
  (atom_create_link exStateAB AtomType.link [1, 3]).2

/-- Concrete machine: `exStateABL` after `atom_release` of the link handle
(address 5, refcount 1, so the release reclaims it). -/
def exStateReleased : SysState := atom_release 8 exStateABL (some 5)

/-- Concrete queue used to exercise `message_queue_send`/`receive` (the
default capacity and message-size limits of `distributed_create`). -/
def exQueue : MessageQueue :=
  { max_messages := 100, max_message_size := 65536, msgs := [] }

/-- Concrete queue holding two undelivered messages, the head one of
mtype 3 (priority 2). -/
def exQueueLoaded : MessageQueue :=
  { max_messages := 100, max_message_size := 65536, msgs := [(3, [7]), (1, [9])] }

/-- Concrete node-table entry with id 2 (S7's `add_node(2, "node2.local", 5001)`). -/
def exNodeA : NodeInfo :=
  { node_id := 2, hostname := "node2.local", port := 5001,
    is_active := false, last_heartbeat := 0 }

/-- Concrete node-table entry with id 3. -/
def exNodeB : NodeInfo :=
  { node_id := 3, hostname := "node3.local", port := 5002,
    is_active := false, last_heartbeat := 0 }

/-- A Heartbeat message from node 2 with timestamp 99. -/
def exHeartbeat : Message :=
  { type := MessageType.heartbeat, source_node := 2, dest_node := 0,
    timestamp := 99, payload := [] }

/-- A Heartbeat message from node 7, which is absent from the example table. -/
def exHeartbeatUnknown : Message :=
  { type := MessageType.heartbeat, source_node := 7, dest_node := 0,
    timestamp := 99, payload := [] }

/-- A fresh consensus record over payload [42] requiring 3 votes, created at
wall-clock second 1000. -/
def exConsensus : Consensus := consensus_create [42] 3 1000

theorem findEntry_nil {α : Type} (k : Nat) : findEntry ([] : List (Nat × α)) k = none := rfl

theorem findEntry_cons {α : Type} (a : Nat) (v : α) (l : List (Nat × α)) (k : Nat) :
    findEntry ((a, v) :: l) k = if a = k then some v else findEntry l k := by
  by_cases h : a = k
  · subst h
    simp [findEntry, List.find?_cons_of_pos]
  · rw [if_neg h]
    unfold findEntry
    rw [List.find?_cons_of_neg]
    simp [h]

theorem findEntry_setEntry {α : Type} (l : List (Nat × α)) (k k' : Nat) (v : α) :
    findEntry (setEntry l k v) k' =
      if k' = k then (findEntry l k).map (fun _ => v) else findEntry l k' := by
  induction l with
  | nil => by_cases h : k' = k <;> simp [findEntry, setEntry, h]
  | cons p rest ih =>
    obtain ⟨a, w⟩ := p
    by_cases ha : a = k
    · subst ha
      have hset : setEntry ((a, w) :: rest) a v = (a, v) :: setEntry rest a v := by
        simp [setEntry]
      rw [hset, findEntry_cons, findEntry_cons, findEntry_cons]
      by_cases hk : k' = a
      · subst hk
        simp
      · rw [if_neg (fun h => hk h.symm), if_neg hk, if_neg (fun h => hk h.symm), ih,
          if_neg hk]
    · have hset : setEntry ((a, w) :: rest) k v = (a, w) :: setEntry rest k v := by
        simp [setEntry, ha]
      rw [hset, findEntry_cons, findEntry_cons, findEntry_cons, if_neg ha]
      by_cases hka : a = k'
      · simp [← hka, ha]
      · rw [if_neg hka, ih, if_neg hka]

theorem setEntry_keys {α : Type} (l : List (Nat × α)) (k : Nat) (v : α) :
    (setEntry l k v).map (fun p => p.1) = l.map (fun p => p.1) := by
  induction l with
  | nil => rfl
  | cons p rest ih =>
    obtain ⟨a, w⟩ := p
    by_cases h : a = k <;> simp_all [setEntry]

theorem findEntry_lt_of_bound {α : Type} (l : List (Nat × α)) (n : Nat)
    (hb : ∀ p ∈ l, p.1 < n) (k : Nat) (h : (findEntry l k).isSome = true) : k < n := by
  induction l with
  | nil => simp [findEntry] at h
  | cons p rest ih =>
    obtain ⟨a, w⟩ := p
    rw [findEntry_cons] at h
    by_cases hak : a = k
    · subst hak
      exact hb (a, w) (List.mem_cons_self _ _)
    · rw [if_neg hak] at h
      exact ih (fun q hq => hb q (List.mem_cons_of_mem _ hq)) h

theorem set_get_tv (s : SysState) (h : Nat) (sv cv : ℚ)
    (hl : (atomOfHandle s h).isSome = true) :
    tvOf (atom_set_tv s (some h) sv cv) h = some { strength := sv, confidence := cv } ∧
    (atom_get_tv (atom_set_tv s (some h) sv cv) (some h)).1 =
      { strength := sv, confidence := cv } := by
  unfold atomOfHandle handleOf at hl
  cases hhd : findEntry s.handles h with
  | none => simp [hhd] at hl
  | some hd =>
    simp only [hhd] at hl
    cases ha : findEntry s.atomsHeap hd.atomRef with
    | none => simp [ha] at hl
    | some a =>
      constructor
      · simp [tvOf, atomOfHandle, handleOf, atom_set_tv, hhd, ha, findEntry_setEntry]
      · simp [atom_get_tv, atom_set_tv, hhd, ha, findEntry_setEntry]

theorem set_get_av (s : SysState) (h : Nat) (sti lti vlti : Int)
    (hl : (atomOfHandle s h).isSome = true) :
    avOf (atom_set_av s (some h) sti lti vlti) h =
      some { sti := sti, lti := lti, vlti := vlti } ∧
    (atom_get_av (atom_set_av s (some h) sti lti vlti) (some h)).1 =
      { sti := sti, lti := lti, vlti := vlti } := by
  unfold atomOfHandle handleOf at hl
  cases hhd : findEntry s.handles h with
  | none => simp [hhd] at hl
  | some hd =>
    simp only [hhd] at hl
    cases ha : findEntry s.atomsHeap hd.atomRef with
    | none => simp [ha] at hl
    | some a =>
      constructor
      · simp [avOf, atomOfHandle, handleOf, atom_set_av, hhd, ha, findEntry_setEntry]
      · simp [atom_get_av, atom_set_av, hhd, ha, findEntry_setEntry]

theorem atomOfHandle_retain (s : SysState) (x : Option Nat) (a : Nat) :
    atomOfHandle (atom_retain s x) a = atomOfHandle s a := by
  cases x with
  | none => rfl
  | some addr =>
    cases hhd : findEntry s.handles addr with
    | none => simp [atom_retain, hhd]
    | some hd =>
      simp only [atom_retain, hhd]
      simp only [atomOfHandle, handleOf, findEntry_setEntry]
      by_cases hax : a = addr
      · subst hax
        rw [if_pos rfl, hhd]
        simp
      · rw [if_neg hax]

theorem typeMatches_retain (k : AtomType) (s : SysState) (x : Option Nat) (a : Nat) :
    typeMatches k (atom_retain s x) a = typeMatches k s a := by
  unfold typeMatches
  rw [atomOfHandle_retain]

theorem nameMatches_retain (nm : String) (s : SysState) (x : Option Nat) (a : Nat) :
    nameMatches nm (atom_retain s x) a = nameMatches nm s a := by
  unfold nameMatches
  rw [atomOfHandle_retain]

theorem refCountOf_retain (s : SysState) (x a : Nat) :
    refCountOf (atom_retain s (some x)) a =
      if a = x then (refCountOf s a).map (fun r => (r + 1) % 2 ^ 32)
      else refCountOf s a := by
  cases hhd : findEntry s.handles x with
  | none =>
    simp only [atom_retain, hhd]
    by_cases hax : a = x
    · subst hax
      rw [if_pos rfl]
      unfold refCountOf handleOf
      rw [hhd]
      rfl
    · rw [if_neg hax]
  | some hd =>
    simp only [atom_retain, hhd]
    unfold refCountOf handleOf
    simp only [findEntry_setEntry]
    by_cases hax : a = x
    · subst hax
      rw [if_pos rfl, if_pos rfl, hhd]
      simp
    · rw [if_neg hax, if_neg hax]

theorem scanRetain_spec (p : SysState → Nat → Bool)
    (hp : ∀ s x a, p (atom_retain s (some x)) a = p s a)
    (l : List Nat) (s : SysState) (hnd : l.Nodup) :
    (scanRetain p s l).1 = l.filter (p s) ∧
    ∀ a, refCountOf (scanRetain p s l).2 a =
      if a ∈ l.filter (p s) then (refCountOf s a).map (fun r => (r + 1) % 2 ^ 32)
      else refCountOf s a := by
  induction l generalizing s with
  | nil => simp [scanRetain]
  | cons a0 rest ih =>
    rw [List.nodup_cons] at hnd
    obtain ⟨ha0, hrest⟩ := hnd
    by_cases hp0 : p s a0 = true
    · have hfilter : (a0 :: rest).filter (p s) = a0 :: rest.filter (p s) := by
        simp [List.filter_cons, hp0]
      have hfilter' : rest.filter (p (atom_retain s (some a0))) = rest.filter (p s) :=
        List.filter_congr (fun b _ => by rw [hp])
      obtain ⟨ih1, ih2⟩ := ih (atom_retain s (some a0)) hrest
      constructor
      · simp only [scanRetain, if_pos hp0]
        rw [ih1, hfilter', hfilter]
      · intro a
        simp only [scanRetain, if_pos hp0]
        rw [ih2 a, hfilter', hfilter]
        by_cases hmem : a ∈ rest.filter (p s)
        · have hane : ¬ (a = a0) := fun e => ha0 (e ▸ List.mem_of_mem_filter hmem)
          rw [if_pos hmem, if_pos (List.mem_cons_of_mem _ hmem), refCountOf_retain,
            if_neg hane]
        · rw [if_neg hmem]
          by_cases haa : a = a0
          · subst haa
            rw [if_pos (List.mem_cons_self _ _), refCountOf_retain, if_pos rfl]
          · have hnc : ¬ (a ∈ a0 :: rest.filter (p s)) := by
              intro hc
              rcases List.mem_cons.mp hc with h1 | h2
              · exact haa h1
              · exact hmem h2
            rw [if_neg hnc, refCountOf_retain, if_neg haa]
    · have hp0' : p s a0 = false := by
        cases hpe : p s a0
        · rfl
        · exact absurd hpe hp0
      have hfilter : (a0 :: rest).filter (p s) = rest.filter (p s) := by
        simp [List.filter_cons, hp0']
      obtain ⟨ih1, ih2⟩ := ih s hrest
      constructor
      · simp only [scanRetain]
        rw [if_neg hp0, ih1, hfilter]
      · intro a
        simp only [scanRetain]
        rw [if_neg hp0, ih2 a, hfilter]

theorem addTarget_eq (s : SysState) (L A t0 : Nat) (lh th : AtomHandle) (la ta : Atom)
    (hL : findEntry s.handles L = some lh) (hAeq : lh.atomRef = A)
    (hA : findEntry s.atomsHeap A = some la)
    (ht0 : findEntry s.handles t0 = some th) (htA : th.atomRef ≠ A)
    (hta : findEntry s.atomsHeap th.atomRef = some ta) :
    addTarget s L t0 =
      { s with
        handles := setEntry s.handles t0
          { th with refCount := (th.refCount + 1) % 2 ^ 32 },
        atomsHeap := setEntry
          (setEntry s.atomsHeap A { la with outgoing := la.outgoing ++ [t0] })
          th.atomRef { ta with incoming := ta.incoming ++ [L] } } := by
  unfold addTarget atom_retain
  simp [hL, hAeq, hA, ht0, findEntry_setEntry, htA, hta]

theorem append_singleton_replicate {α : Type} (x : List α) (a : α) (c : Nat) :
    (x ++ [a]) ++ List.replicate c a = x ++ List.replicate (c + 1) a := by
  rw [List.append_assoc, List.singleton_append, ← List.replicate_succ]

theorem foldTargets_spec (rem : List Nat) : ∀ (s : SysState) (L A : Nat),
    atomRefOf s L = some A →
    (findEntry s.atomsHeap A).isSome = true →
    (∀ t ∈ rem, t ≠ L ∧ atomRefOf s t ≠ some A ∧ (atomOfHandle s t).isSome = true) →
    (∀ t1 ∈ rem, ∀ t2 ∈ rem, atomRefOf s t1 = atomRefOf s t2 → t1 = t2) →
    (∀ x, atomRefOf (foldTargets s L rem) x = atomRefOf s x) ∧
    (∀ x, x ∉ rem → handleOf (foldTargets s L rem) x = handleOf s x) ∧
    (findEntry (foldTargets s L rem).atomsHeap A =
      (findEntry s.atomsHeap A).map (fun a => { a with outgoing := a.outgoing ++ rem })) ∧
    (∀ B, B ≠ A → (∀ t ∈ rem, atomRefOf s t ≠ some B) →
      findEntry (foldTargets s L rem).atomsHeap B = findEntry s.atomsHeap B) ∧
    (∀ t ∈ rem, incomingOf (foldTargets s L rem) t =
      (incomingOf s t).map (fun inc => inc ++ List.replicate (rem.count t) L)) ∧
    (∀ t ∈ rem, refCountOf (foldTargets s L rem) t =
      (refCountOf s t).map (fun r => (r + rem.count t) % 2 ^ 32)) := by
  induction rem with
  | nil =>
    intro s L A hL hA hrem hinj
    refine ⟨fun x => rfl, fun x _ => rfl, ?_, fun B _ _ => rfl,
      fun t ht => absurd ht (List.not_mem_nil t),
      fun t ht => absurd ht (List.not_mem_nil t)⟩
    cases hfa : findEntry s.atomsHeap A with
    | none => simp [foldTargets, hfa]
    | some a0 => simp [foldTargets, hfa]
  | cons t0 rest ih =>
    intro s L A hL0 hA0 hrem hinj
    obtain ⟨ht0L, ht0A, ht0live⟩ := hrem t0 (List.mem_cons_self t0 rest)
    have hL := hL0
    unfold atomRefOf handleOf at hL
    have htlive := ht0live
    unfold atomOfHandle handleOf at htlive
    cases hLh : findEntry s.handles L with
    | none => rw [hLh] at hL; simp at hL
    | some lh =>
    rw [hLh] at hL
    have hAeq : lh.atomRef = A := by simpa using hL
    cases hla : findEntry s.atomsHeap A with
    | none => rw [hla] at hA0; simp at hA0
    | some la =>
    cases hth : findEntry s.handles t0 with
    | none => rw [hth] at htlive; simp at htlive
    | some th =>
    simp only [hth] at htlive
    cases hta : findEntry s.atomsHeap th.atomRef with
    | none => rw [hta] at htlive; simp at htlive
    | some ta =>
    have hrefsomet0 : atomRefOf s t0 = some th.atomRef := by
      unfold atomRefOf handleOf
      rw [hth]
      rfl
    have htArefA : th.atomRef ≠ A := by
      intro e
      apply ht0A
      rw [hrefsomet0, e]
    have hAth : A ≠ th.atomRef := fun e => htArefA e.symm
    have haddeq := addTarget_eq s L A t0 lh th la ta hLh hAeq hla hth htArefA hta
    -- effect of the first iteration on each component
    have href1 : ∀ x, atomRefOf (addTarget s L t0) x = atomRefOf s x := by
      intro x
      unfold atomRefOf handleOf
      rw [haddeq]
      simp only [findEntry_setEntry]
      by_cases hx : x = t0
      · subst hx
        rw [if_pos rfl, hth]
        rfl
      · rw [if_neg hx]
    have hhandle1 : ∀ x, x ≠ t0 → handleOf (addTarget s L t0) x = handleOf s x := by
      intro x hx
      unfold handleOf
      rw [haddeq]
      simp only [findEntry_setEntry]
      rw [if_neg hx]
    have hhd1self : handleOf (addTarget s L t0) t0 =
        some { th with refCount := (th.refCount + 1) % 2 ^ 32 } := by
      unfold handleOf
      rw [haddeq]
      simp [findEntry_setEntry, hth]
    have hA1 : findEntry (addTarget s L t0).atomsHeap A =
        some { la with outgoing := la.outgoing ++ [t0] } := by
      rw [haddeq]
      simp [findEntry_setEntry, hAth, hla]
    have hthatom1 : findEntry (addTarget s L t0).atomsHeap th.atomRef =
        some { ta with incoming := ta.incoming ++ [L] } := by
      rw [haddeq]
      simp [findEntry_setEntry, htArefA, hta]
    have hother1 : ∀ B, B ≠ A → B ≠ th.atomRef →
        findEntry (addTarget s L t0).atomsHeap B = findEntry s.atomsHeap B := by
      intro B hBA hBth
      rw [haddeq]
      simp [findEntry_setEntry, hBA, hBth]
    -- re-establish the invariants for the tail
    have hL1 : atomRefOf (addTarget s L t0) L = some A := by
      rw [href1]
      exact hL0
    have hA1some : (findEntry (addTarget s L t0).atomsHeap A).isSome = true := by
      rw [hA1]
      rfl
    have hrem1 : ∀ t ∈ rest, t ≠ L ∧ atomRefOf (addTarget s L t0) t ≠ some A ∧
        (atomOfHandle (addTarget s L t0) t).isSome = true := by
      intro t htmem
      obtain ⟨h1, h2, h3⟩ := hrem t (List.mem_cons_of_mem t0 htmem)
      refine ⟨h1, ?_, ?_⟩
      · rw [href1]
        exact h2
      · unfold atomOfHandle handleOf at h3
        by_cases hteq : t = t0
        · subst hteq
          unfold atomOfHandle
          rw [hhd1self]
          simp only []
          rw [show ({ th with refCount := (th.refCount + 1) % 2 ^ 32 } :
                AtomHandle).atomRef = th.atomRef from rfl]
          rw [hthatom1]
          rfl
        · cases hht : findEntry s.handles t with
          | none => rw [hht] at h3; simp at h3
          | some tht =>
          simp only [hht] at h3
          cases hat : findEntry s.atomsHeap tht.atomRef with
          | none => rw [hat] at h3; simp at h3
          | some att =>
          have hrefsomet : atomRefOf s t = some tht.atomRef := by
            unfold atomRefOf handleOf
            rw [hht]
            rfl
          have hneA : tht.atomRef ≠ A := by
            intro e
            apply h2
            rw [hrefsomet, e]
          have hneth : tht.atomRef ≠ th.atomRef := by
            intro e
            apply hteq
            refine hinj t (List.mem_cons_of_mem t0 htmem) t0 (List.mem_cons_self t0 rest) ?_
            rw [hrefsomet, hrefsomet0, e]
          unfold atomOfHandle
          rw [hhandle1 t hteq]
          unfold handleOf
          rw [hht]
          simp only []
          rw [hother1 tht.atomRef hneA hneth, hat]
          rfl
    have hinj1 : ∀ t1 ∈ rest, ∀ t2 ∈ rest,
        atomRefOf (addTarget s L t0) t1 = atomRefOf (addTarget s L t0) t2 → t1 = t2 := by
      intro t1 h1 t2 h2 he
      rw [href1, href1] at he
      exact hinj t1 (List.mem_cons_of_mem t0 h1) t2 (List.mem_cons_of_mem t0 h2) he
    obtain ⟨ih1, ih2, ih3, ih4, ih5, ih6⟩ :=
      ih (addTarget s L t0) L A hL1 hA1some hrem1 hinj1
    refine ⟨?_, ?_, ?_, ?_, ?_, ?_⟩
    · exact fun x => (ih1 x).trans (href1 x)
    · intro x hx
      have hx0 : x ≠ t0 := fun e => hx (e ▸ List.mem_cons_self t0 rest)
      have hxr : x ∉ rest := fun hr => hx (List.mem_cons_of_mem t0 hr)
      exact (ih2 x hxr).trans (hhandle1 x hx0)
    · have h3s := ih3
      rw [hA1] at h3s
      refine h3s.trans ?_
      simp [List.append_assoc]
    · intro B hBA hall
      have hBth : B ≠ th.atomRef := by
        intro e
        exact hall t0 (List.mem_cons_self t0 rest) (by rw [hrefsomet0, e])
      have h4 := ih4 B hBA (fun t ht => by
        rw [href1]
        exact hall t (List.mem_cons_of_mem t0 ht))
      exact h4.trans (hother1 B hBA hBth)
    · intro t htmem
      have hincS : incomingOf s t0 = some ta.incoming := by
        unfold incomingOf atomOfHandle handleOf
        rw [hth]
        simp only []
        rw [hta]
        rfl
      have hinc1 : incomingOf (addTarget s L t0) t0 = some (ta.incoming ++ [L]) := by
        unfold incomingOf atomOfHandle
        rw [hhd1self]
        simp only []
        rw [show ({ th with refCount := (th.refCount + 1) % 2 ^ 32 } :
              AtomHandle).atomRef = th.atomRef from rfl]
        rw [hthatom1]
        rfl
      by_cases hteq : t = t0
      · subst hteq
        by_cases htr : t ∈ rest
        · have h5 := ih5 t htr
          rw [hinc1] at h5
          refine h5.trans ?_
          rw [hincS, List.count_cons_self]
          simp only [Option.map_some']
          rw [append_singleton_replicate]
        · have hno : ∀ u ∈ rest, atomRefOf (addTarget s L t) u ≠ some th.atomRef := by
            intro u hur e
            apply htr
            have heq : atomRefOf s u = atomRefOf s t := by
              rw [← href1 u, e, hrefsomet0]
            have := hinj u (List.mem_cons_of_mem t hur) t (List.mem_cons_self t rest) heq
            exact this ▸ hur
          have h4 := ih4 th.atomRef htArefA hno
          have hfoldinc : incomingOf (foldTargets (addTarget s L t) L rest) t =
              some (ta.incoming ++ [L]) := by
            unfold incomingOf atomOfHandle
            rw [ih2 t htr, hhd1self]
            simp only []
            rw [show ({ th with refCount := (th.refCount + 1) % 2 ^ 32 } :
                  AtomHandle).atomRef = th.atomRef from rfl]
            rw [h4, hthatom1]
            rfl
          refine hfoldinc.trans ?_
          rw [hincS, List.count_cons_self, List.count_eq_zero.mpr htr]
          simp
      · have htr : t ∈ rest := by
          rcases List.mem_cons.mp htmem with e | h
          · exact absurd e hteq
          · exact h
        obtain ⟨-, h2t, h3t⟩ := hrem t htmem
        unfold atomOfHandle handleOf at h3t
        cases hht : findEntry s.handles t with
        | none => rw [hht] at h3t; simp at h3t
        | some tht =>
        simp only [hht] at h3t
        cases hat : findEntry s.atomsHeap tht.atomRef with
        | none => rw [hat] at h3t; simp at h3t
        | some att =>
        have hrefsomet : atomRefOf s t = some tht.atomRef := by
          unfold atomRefOf handleOf
          rw [hht]
          rfl
        have hneA : tht.atomRef ≠ A := by
          intro e
          apply h2t
          rw [hrefsomet, e]
        have hneth : tht.atomRef ≠ th.atomRef := by
          intro e
          apply hteq
          refine hinj t htmem t0 (List.mem_cons_self t0 rest) ?_
          rw [hrefsomet, hrefsomet0, e]
        have hincpres : incomingOf (addTarget s L t0) t = incomingOf s t := by
          unfold incomingOf atomOfHandle
          rw [hhandle1 t hteq]
          unfold handleOf
          rw [hht]
          simp only []
          rw [hother1 tht.atomRef hneA hneth]
        have h5 := ih5 t htr
        rw [hincpres] at h5
        refine h5.trans ?_
        rw [List.count_cons_of_ne hteq]
    · intro t htmem
      have hrcS : refCountOf s t0 = some th.refCount := by
        unfold refCountOf handleOf
        rw [hth]
        rfl
      by_cases hteq : t = t0
      · subst hteq
        by_cases htr : t ∈ rest
        · have h6 := ih6 t htr
          have hrc1 : refCountOf (addTarget s L t) t =
              some ((th.refCount + 1) % 2 ^ 32) := by
            unfold refCountOf
            rw [hhd1self]
            rfl
          rw [hrc1] at h6
          refine h6.trans ?_
          rw [hrcS, List.count_cons_self]
          simp only [Option.map_some']
          rw [Nat.mod_add_mod]
          congr 1
          omega
        · have hfoldrc : refCountOf (foldTargets (addTarget s L t) L rest) t =
              some ((th.refCount + 1) % 2 ^ 32) := by
            unfold refCountOf
            rw [ih2 t htr, hhd1self]
            rfl
          refine hfoldrc.trans ?_
          rw [hrcS, List.count_cons_self, List.count_eq_zero.mpr htr]
          simp
      · have htr : t ∈ rest := by
          rcases List.mem_cons.mp htmem with e | h
          · exact absurd e hteq
          · exact h
        have hrcp : refCountOf (addTarget s L t0) t = refCountOf s t := by
          unfold refCountOf
          rw [hhandle1 t hteq]
        have h6 := ih6 t htr
        rw [hrcp] at h6
        refine h6.trans ?_
        rw [List.count_cons_of_ne hteq]

theorem Pres_refl (s : SysState) : Pres s s :=
  ⟨rfl, rfl, rfl, rfl, rfl, fun _ => rfl⟩

theorem Pres_trans {s s' s'' : SysState} (h1 : Pres s s') (h2 : Pres s' s'') :
    Pres s s'' :=
  ⟨h2.1.trans h1.1, h2.2.1.trans h1.2.1, h2.2.2.1.trans h1.2.2.1,
   h2.2.2.2.1.trans h1.2.2.2.1, h2.2.2.2.2.1.trans h1.2.2.2.2.1,
   fun a => (h2.2.2.2.2.2 a).trans (h1.2.2.2.2.2 a)⟩

theorem Pres_setHeap (s : SysState) (B : Nat) (a : Atom) :
    Pres s { s with atomsHeap := setEntry s.atomsHeap B a } :=
  ⟨rfl, rfl, rfl, rfl, setEntry_keys s.atomsHeap B a, fun _ => rfl⟩

theorem Pres_retain (s : SysState) (x : Option Nat) : Pres s (atom_retain s x) := by
  cases x with
  | none => exact Pres_refl s
  | some addr =>
    cases hf : findEntry s.handles addr with
    | none =>
      simp only [atom_retain, hf]
      exact Pres_refl s
    | some hd =>
      simp only [atom_retain, hf]
      refine ⟨rfl, rfl, rfl, setEntry_keys s.handles addr _, rfl, ?_⟩
      intro a
      unfold idOf handleOf
      simp only [findEntry_setEntry]
      by_cases hax : a = addr
      · subst hax
        rw [if_pos rfl, hf]
        rfl
      · rw [if_neg hax]

theorem Pres_addTarget (s : SysState) (L t : Nat) : Pres s (addTarget s L t) := by
  unfold addTarget
  simp only []
  split
  · split
    · refine Pres_trans ?_ (Pres_setHeap _ _ _)
      refine Pres_trans ?_ (Pres_retain _ (some t))
      split
      · split
        · exact Pres_setHeap s _ _
        · exact Pres_refl s
      · exact Pres_refl s
    · refine Pres_trans ?_ (Pres_retain _ (some t))
      split
      · split
        · exact Pres_setHeap s _ _
        · exact Pres_refl s
      · exact Pres_refl s
  · refine Pres_trans ?_ (Pres_retain _ (some t))
    split
    · split
      · exact Pres_setHeap s _ _
      · exact Pres_refl s
    · exact Pres_refl s

theorem Pres_foldTargets (rem : List Nat) : ∀ (s : SysState) (L : Nat),
    Pres s (foldTargets s L rem) := by
  induction rem with
  | nil => intro s L; exact Pres_refl s
  | cons t0 rest ih =>
    intro s L
    exact Pres_trans (Pres_addTarget s L t0) (ih (addTarget s L t0) L)

theorem spaceIds_of_Pres (s s' : SysState) (h : Pres s s') : spaceIds s' = spaceIds s := by
  unfold spaceIds
  rw [h.2.2.1]
  apply List.map_congr_left
  intro a ha
  rw [show (handleOf s' a).map (fun h => h.id) = idOf s' a from rfl,
    h.2.2.2.2.2 a]
  rfl

theorem keysBound_of_Pres (s s' : SysState) (h : Pres s s') (hk : keysBound s) :
    keysBound s' := by
  obtain ⟨h1, h2, h3, h4, h5, h6⟩ := h
  constructor
  · intro p hp
    have hmem : p.1 ∈ s'.handles.map (fun p => p.1) := List.mem_map_of_mem _ hp
    rw [h4] at hmem
    obtain ⟨q, hq, he⟩ := List.mem_map.mp hmem
    rw [h2, ← he]
    exact hk.1 q hq
  · intro p hp
    have hmem : p.1 ∈ s'.atomsHeap.map (fun p => p.1) := List.mem_map_of_mem _ hp
    rw [h5] at hmem
    obtain ⟨q, hq, he⟩ := List.mem_map.mp hmem
    rw [h2, ← he]
    exact hk.2 q hq

theorem spaceIds_create (s : SysState) (k : AtomType) (nm : Option String)
    (h4 : ∀ a ∈ s.space.atoms, a < s.nextAddr) :
    spaceIds (atom_create s k nm).2 = spaceIds s ++ [s.next_atom_id] := by
  unfold spaceIds
  rw [show ((atom_create s k nm).2).space.atoms = s.space.atoms ++ [s.nextAddr + 1]
      from rfl, List.map_append]
  congr 1
  · apply List.map_congr_left
    intro a ha
    have hne : s.nextAddr + 1 ≠ a := by
      have := h4 a ha
      omega
    rw [show handleOf (atom_create s k nm).2 a = handleOf s a from by
      unfold handleOf
      rw [show ((atom_create s k nm).2).handles =
          (s.nextAddr + 1,
            { id := s.next_atom_id, atomRef := s.nextAddr, refCount := 1 }) ::
            s.handles from rfl, findEntry_cons, if_neg hne]]
  · show [((handleOf (atom_create s k nm).2 (s.nextAddr + 1)).map
        (fun h => h.id)).getD 0] = [s.next_atom_id]
    rw [show handleOf (atom_create s k nm).2 (s.nextAddr + 1) =
        some { id := s.next_atom_id, atomRef := s.nextAddr, refCount := 1 } from by
      unfold handleOf
      rw [show ((atom_create s k nm).2).handles =
          (s.nextAddr + 1,
            { id := s.next_atom_id, atomRef := s.nextAddr, refCount := 1 }) ::
            s.handles from rfl, findEntry_cons, if_pos rfl]]
    rfl

theorem IdInv_create (n : Nat) (s : SysState) (k : AtomType) (nm : Option String)
    (hI : IdInv n s) (hn : n + 2 < 2 ^ 64) :
    IdInv (n + 1) (atom_create s k nm).2 := by
  obtain ⟨h1, h2, h3, h4⟩ := hI
  refine ⟨?_, ?_, ?_, ?_⟩
  · show (s.next_atom_id + 1) % 2 ^ 64 = n + 1 + 1
    rw [h1]
    exact Nat.mod_eq_of_lt (by omega)
  · rw [spaceIds_create s k nm h4, h2, h1, List.range'_1_concat]
    have he : 1 + n = n + 1 := by omega
    rw [he]
  · constructor
    · intro p hp
      rw [show ((atom_create s k nm).2).handles =
          (s.nextAddr + 1,
            { id := s.next_atom_id, atomRef := s.nextAddr, refCount := 1 }) ::
            s.handles from rfl] at hp
      show p.1 < s.nextAddr + 2
      rcases List.mem_cons.mp hp with e | hm
      · rw [e]
        simp
      · have := h3.1 p hm
        omega
    · intro p hp
      rw [show ((atom_create s k nm).2).atomsHeap =
          (s.nextAddr,
            { id := s.next_atom_id, type := k, name := nm,
              tv := { strength := 1, confidence := 0 },
              av := { sti := 0, lti := 0, vlti := 0 },
              outgoing := [], incoming := [],
              creation_time := s.now, last_access_time := s.now }) ::
            s.atomsHeap from rfl] at hp
      show p.1 < s.nextAddr + 2
      rcases List.mem_cons.mp hp with e | hm
      · rw [e]
        simp
      · have := h3.2 p hm
        omega
  · intro a ha
    rw [show ((atom_create s k nm).2).space.atoms =
        s.space.atoms ++ [s.nextAddr + 1] from rfl] at ha
    show a < s.nextAddr + 2
    rcases List.mem_append.mp ha with hm | hm
    · have := h4 a hm
      omega
    · have := List.mem_singleton.mp hm
      omega

theorem IdInv_link (n : Nat) (s : SysState) (k : AtomType) (tgts : List Nat)
    (hI : IdInv n s) (hn : n + 2 < 2 ^ 64) :
    IdInv (n + 1) (atom_create_link s k tgts).2 := by
  have hc := IdInv_create n s k none hI hn
  have hp : Pres (atom_create s k none).2 (atom_create_link s k tgts).2 :=
    Pres_foldTargets tgts (atom_create s k none).2 (atom_create s k none).1
  obtain ⟨hc1, hc2, hc3, hc4⟩ := hc
  refine ⟨?_, ?_, ?_, ?_⟩
  · rw [hp.1, hc1]
  · rw [spaceIds_of_Pres _ _ hp, hc2]
  · exact keysBound_of_Pres _ _ hp hc3
  · intro a ha
    rw [hp.2.2.1] at ha
    rw [hp.2.1]
    exact hc4 a ha

theorem IdInv_runOps (ops : List CreationOp) : ∀ (n : Nat) (s : SysState),
    IdInv n s → n + ops.length + 1 < 2 ^ 64 →
    IdInv (n + ops.length) (runOps s ops) := by
  induction ops with
  | nil =>
    intro n s h _
    simpa using h
  | cons op rest ih =>
    intro n s h hbound
    rw [List.length_cons] at hbound
    have hstep : IdInv (n + 1) (execOp s op) := by
      cases op with
      | node k nm => exact IdInv_create n s k nm h (by omega)
      | link k tg => exact IdInv_link n s k tg h (by omega)
    have hrec := ih (n + 1) (execOp s op) hstep (by omega)
    rw [show n + (op :: rest).length = n + 1 + rest.length from by
      rw [List.length_cons]; omega]
    exact hrec

/-- C5: for every sequence of creation calls from process start, the ids of
the atomspace's atoms are exactly 1, 2, …, n in insertion order — strictly
increasing starting at 1, pairwise distinct, and never 0.  (The hypothesis
keeps the uint64 counter from its astronomically distant wrap-around, per the
spec: "never wraps under any realistic workload (64-bit)".) -/
theorem atom_ids_monotonic (ops : List CreationOp)
    (hlen : ops.length + 1 < 2 ^ 64) :
    spaceIds (runOps (atomspace_create 1) ops) = List.range' 1 ops.length ∧
    List.Chain' (· < ·) (spaceIds (runOps (atomspace_create 1) ops)) ∧
    (spaceIds (runOps (atomspace_create 1) ops)).Nodup ∧
    0 ∉ spaceIds (runOps (atomspace_create 1) ops) := by
  have h0 : IdInv 0 (atomspace_create 1) := by
    refine ⟨rfl, rfl, ⟨?_, ?_⟩, ?_⟩ <;> intro p hp <;> simp [atomspace_create] at hp
  have hrun := IdInv_runOps ops 0 (atomspace_create 1) h0 (by omega)
  obtain ⟨h1, h2, h3, h4⟩ := hrun
  rw [Nat.zero_add] at h2
  refine ⟨h2, ?_, ?_, ?_⟩
  · rw [h2]
    exact (List.pairwise_lt_range' 1 ops.length).chain'
  · rw [h2]
    exact List.nodup_range' 1 ops.length
  · rw [h2]
    intro hmem
    have := (List.mem_range'_1.mp hmem).1
    omega

/-- Witness for C5 with three creation calls (two Concepts, then a Link over
their handles): the atomspace's ids come out as [1, 2, 3]. -/
theorem atom_ids_monotonic_witness :
    spaceIds (runOps (atomspace_create 1)
      [CreationOp.node AtomType.concept (some "TestConcept"),
       CreationOp.node AtomType.concept none,
       CreationOp.link AtomType.link [1, 3]]) = List.range' 1 3 ∧
    List.Chain' (· < ·) (spaceIds (runOps (atomspace_create 1)
      [CreationOp.node AtomType.concept (some "TestConcept"),
       CreationOp.node AtomType.concept none,
       CreationOp.link AtomType.link [1, 3]])) ∧
    (spaceIds (runOps (atomspace_create 1)
      [CreationOp.node AtomType.concept (some "TestConcept"),
       CreationOp.node AtomType.concept none,
       CreationOp.link AtomType.link [1, 3]])).Nodup ∧
    0 ∉ spaceIds (runOps (atomspace_create 1)
      [CreationOp.node AtomType.concept (some "TestConcept"),
       CreationOp.node AtomType.concept none,
       CreationOp.link AtomType.link [1, 3]]) :=
  atom_ids_monotonic
    [CreationOp.node AtomType.concept (some "TestConcept"),
     CreationOp.node AtomType.concept none,
     CreationOp.link AtomType.link [1, 3]] (by decide)

/-- C3: `atom_create_link` on live targets (with, as in every reachable state,
distinct handles owning distinct atom records) produces a link handle whose
atom's outgoing sequence is exactly the given target list in order, registers
the link handle in each target's incoming set, and retains each target once
per outgoing slot (refcount grows by the slot count, uint32 arithmetic). -/
theorem atom_create_link_spec (s : SysState) (k : AtomType) (ts : List Nat)
    (hb : keysBound s)
    (hts : ∀ t ∈ ts, (atomOfHandle s t).isSome = true)
    (hinj : ∀ t1 ∈ ts, ∀ t2 ∈ ts, atomRefOf s t1 = atomRefOf s t2 → t1 = t2) :
    outgoingOf (atom_create_link s k ts).2 (atom_create_link s k ts).1 = some ts ∧
    (∀ t ∈ ts, ∃ inc, incomingOf (atom_create_link s k ts).2 t = some inc ∧
      (atom_create_link s k ts).1 ∈ inc) ∧
    (∀ t ∈ ts, refCountOf (atom_create_link s k ts).2 t =
      (refCountOf s t).map (fun r => (r + ts.count t) % 2 ^ 32)) := by
  have hbound_t : ∀ t ∈ ts, t < s.nextAddr := by
    intro t ht
    have h3 := hts t ht
    unfold atomOfHandle handleOf at h3
    cases hht : findEntry s.handles t with
    | none => rw [hht] at h3; simp at h3
    | some tht =>
      exact findEntry_lt_of_bound s.handles s.nextAddr hb.1 t (by rw [hht]; rfl)
  have hrefbound : ∀ t ∈ ts, ∀ B, atomRefOf s t = some B → B < s.nextAddr := by
    intro t ht B hB
    have h3 := hts t ht
    unfold atomOfHandle handleOf at h3
    unfold atomRefOf handleOf at hB
    cases hht : findEntry s.handles t with
    | none => rw [hht] at h3; simp at h3
    | some tht =>
      simp only [hht] at h3 hB
      have hBe : tht.atomRef = B := by simpa using hB
      subst hBe
      exact findEntry_lt_of_bound s.atomsHeap s.nextAddr hb.2 _ h3
  have hhs1eq : ∀ t, t < s.nextAddr →
      handleOf (atom_create s k none).2 t = handleOf s t := by
    intro t hlt
    unfold handleOf
    rw [show ((atom_create s k none).2).handles =
        (s.nextAddr + 1,
          { id := s.next_atom_id, atomRef := s.nextAddr, refCount := 1 }) ::
          s.handles from rfl]
    rw [findEntry_cons, if_neg (by omega)]
  have hatm1eq : ∀ B, B < s.nextAddr →
      findEntry ((atom_create s k none).2).atomsHeap B = findEntry s.atomsHeap B := by
    intro B hlt
    rw [show ((atom_create s k none).2).atomsHeap =
        (s.nextAddr,
          { id := s.next_atom_id, type := k, name := none,
            tv := { strength := 1, confidence := 0 },
            av := { sti := 0, lti := 0, vlti := 0 },
            outgoing := [], incoming := [],
            creation_time := s.now, last_access_time := s.now }) ::
          s.atomsHeap from rfl]
    rw [findEntry_cons, if_neg (by omega)]
  have hrefeq : ∀ t, t < s.nextAddr →
      atomRefOf (atom_create s k none).2 t = atomRefOf s t := by
    intro t hlt
    unfold atomRefOf
    rw [hhs1eq t hlt]
  have pL : atomRefOf (atom_create s k none).2 (s.nextAddr + 1) = some s.nextAddr := by
    unfold atomRefOf handleOf
    rw [show ((atom_create s k none).2).handles =
        (s.nextAddr + 1,
          { id := s.next_atom_id, atomRef := s.nextAddr, refCount := 1 }) ::
          s.handles from rfl]
    rw [findEntry_cons, if_pos rfl]
    rfl
  have pAatom : findEntry ((atom_create s k none).2).atomsHeap s.nextAddr =
      some { id := s.next_atom_id, type := k, name := none,
             tv := { strength := 1, confidence := 0 },
             av := { sti := 0, lti := 0, vlti := 0 },
             outgoing := [], incoming := [],
             creation_time := s.now, last_access_time := s.now } := by
    rw [show ((atom_create s k none).2).atomsHeap =
        (s.nextAddr,
          { id := s.next_atom_id, type := k, name := none,
            tv := { strength := 1, confidence := 0 },
            av := { sti := 0, lti := 0, vlti := 0 },
            outgoing := [], incoming := [],
            creation_time := s.now, last_access_time := s.now }) ::
          s.atomsHeap from rfl]
    rw [findEntry_cons, if_pos rfl]
  have pA : (findEntry ((atom_create s k none).2).atomsHeap s.nextAddr).isSome = true := by
    rw [pAatom]
    rfl
  have prem : ∀ t ∈ ts, t ≠ s.nextAddr + 1 ∧
      atomRefOf (atom_create s k none).2 t ≠ some s.nextAddr ∧
      (atomOfHandle (atom_create s k none).2 t).isSome = true := by
    intro t ht
    have hlt := hbound_t t ht
    refine ⟨by omega, ?_, ?_⟩
    · intro e
      rw [hrefeq t hlt] at e
      have := hrefbound t ht s.nextAddr e
      omega
    · have h3 := hts t ht
      unfold atomOfHandle at h3 ⊢
      rw [hhs1eq t hlt]
      unfold handleOf at h3 ⊢
      cases hht : findEntry s.handles t with
      | none => rw [hht] at h3; simp at h3
      | some tht =>
        simp only [hht] at h3 ⊢
        have hrlt : tht.atomRef < s.nextAddr :=
          findEntry_lt_of_bound s.atomsHeap s.nextAddr hb.2 _ h3
        rw [hatm1eq _ hrlt]
        exact h3
  have pinj : ∀ t1 ∈ ts, ∀ t2 ∈ ts,
      atomRefOf (atom_create s k none).2 t1 = atomRefOf (atom_create s k none).2 t2 →
      t1 = t2 := by
    intro t1 h1 t2 h2 he
    rw [hrefeq t1 (hbound_t t1 h1), hrefeq t2 (hbound_t t2 h2)] at he
    exact hinj t1 h1 t2 h2 he
  obtain ⟨f1, f2, f3, f4, f5, f6⟩ :=
    foldTargets_spec ts (atom_create s k none).2 (s.nextAddr + 1) s.nextAddr
      pL pA prem pinj
  have hLnots : s.nextAddr + 1 ∉ ts := by
    intro h
    have := hbound_t _ h
    omega
  refine ⟨?_, ?_, ?_⟩
  · show outgoingOf
        (foldTargets (atom_create s k none).2 (s.nextAddr + 1) ts) (s.nextAddr + 1) =
      some ts
    unfold outgoingOf atomOfHandle
    rw [f2 _ hLnots]
    unfold handleOf
    rw [show findEntry ((atom_create s k none).2).handles (s.nextAddr + 1) =
        some { id := s.next_atom_id, atomRef := s.nextAddr, refCount := 1 } from by
      rw [show ((atom_create s k none).2).handles =
          (s.nextAddr + 1,
            { id := s.next_atom_id, atomRef := s.nextAddr, refCount := 1 }) ::
            s.handles from rfl]
      rw [findEntry_cons, if_pos rfl]]
    simp only []
    rw [f3, pAatom]
    simp
  · intro t ht
    show ∃ inc,
      incomingOf (foldTargets (atom_create s k none).2 (s.nextAddr + 1) ts) t =
        some inc ∧ s.nextAddr + 1 ∈ inc
    have hlt := hbound_t t ht
    have h5 := f5 t ht
    have hpres : incomingOf (atom_create s k none).2 t = incomingOf s t := by
      unfold incomingOf atomOfHandle
      rw [hhs1eq t hlt]
      unfold handleOf
      have h3 := hts t ht
      unfold atomOfHandle handleOf at h3
      cases hht : findEntry s.handles t with
      | none => rw [hht] at h3
      | some tht =>
        simp only [hht] at h3 ⊢
        have hrlt : tht.atomRef < s.nextAddr :=
          findEntry_lt_of_bound s.atomsHeap s.nextAddr hb.2 _ h3
        rw [hatm1eq _ hrlt]
    rw [hpres] at h5
    cases hinc : incomingOf s t with
    | none =>
      exfalso
      have h3 := hts t ht
      unfold incomingOf at hinc
      cases hao : atomOfHandle s t with
      | none => rw [hao] at h3; simp at h3
      | some x => rw [hao] at hinc; simp at hinc
    | some inc0 =>
      rw [hinc] at h5
      refine ⟨inc0 ++ List.replicate (ts.count t) (s.nextAddr + 1), h5, ?_⟩
      have hcne : ts.count t ≠ 0 := by
        intro e
        rw [List.count_eq_zero] at e
        exact e ht
      exact List.mem_append.mpr (Or.inr (List.mem_replicate.mpr ⟨hcne, rfl⟩))
  · intro t ht
    show refCountOf
        (foldTargets (atom_create s k none).2 (s.nextAddr + 1) ts) t =
      (refCountOf s t).map (fun r => (r + ts.count t) % 2 ^ 32)
    have hlt := hbound_t t ht
    have h6 := f6 t ht
    have hpres : refCountOf (atom_create s k none).2 t = refCountOf s t := by
      unfold refCountOf
      rw [hhs1eq t hlt]
    rw [hpres] at h6
    exact h6

/-- Witness for C3 on the concrete two-Concept machine: the link over handles
[1, 3] gets outgoing [1, 3] in order, appears in both targets' incoming sets,
and bumps each target's refcount by its slot count. -/
theorem atom_create_link_spec_witness :
    outgoingOf (atom_create_link exStateAB AtomType.link [1, 3]).2
        (atom_create_link exStateAB AtomType.link [1, 3]).1 = some [1, 3] ∧
    (∀ t ∈ [1, 3], ∃ inc,
      incomingOf (atom_create_link exStateAB AtomType.link [1, 3]).2 t = some inc ∧
      (atom_create_link exStateAB AtomType.link [1, 3]).1 ∈ inc) ∧
    (∀ t ∈ [1, 3], refCountOf (atom_create_link exStateAB AtomType.link [1, 3]).2 t =
      (refCountOf exStateAB t).map
        (fun r => (r + List.count t [1, 3]) % 2 ^ 32)) :=
  atom_create_link_spec exStateAB AtomType.link [1, 3] (by decide) (by decide)
    (by decide)

/-- C4: `by_type` (resp. `by_name`) returns exactly the owned handles whose
atom's type (resp. name) matches, in insertion order (the result is the filter
of the insertion-ordered handle array, hence a sublist of it), and the
returned machine has retained each returned handle exactly once, leaving every
other refcount unchanged. -/
theorem atomspace_queries_spec (s : SysState) (k : AtomType) (nm : String)
    (hnd : s.space.atoms.Nodup) :
    (atomspace_get_atoms_by_type s k).1 = s.space.atoms.filter (typeMatches k s) ∧
    (∀ a, a ∈ (atomspace_get_atoms_by_type s k).1 ↔
      a ∈ s.space.atoms ∧ typeMatches k s a = true) ∧
    (atomspace_get_atoms_by_type s k).1.Sublist s.space.atoms ∧
    (∀ a, refCountOf (atomspace_get_atoms_by_type s k).2 a =
      if a ∈ (atomspace_get_atoms_by_type s k).1
      then (refCountOf s a).map (fun r => (r + 1) % 2 ^ 32)
      else refCountOf s a) ∧
    (atomspace_get_atoms_by_name s nm).1 = s.space.atoms.filter (nameMatches nm s) ∧
    (∀ a, a ∈ (atomspace_get_atoms_by_name s nm).1 ↔
      a ∈ s.space.atoms ∧ nameMatches nm s a = true) ∧
    (atomspace_get_atoms_by_name s nm).1.Sublist s.space.atoms ∧
    (∀ a, refCountOf (atomspace_get_atoms_by_name s nm).2 a =
      if a ∈ (atomspace_get_atoms_by_name s nm).1
      then (refCountOf s a).map (fun r => (r + 1) % 2 ^ 32)
      else refCountOf s a) := by
  obtain ⟨ht1, ht2⟩ :=
    scanRetain_spec (typeMatches k) (fun s x a => typeMatches_retain k s (some x) a)
      s.space.atoms s hnd
  obtain ⟨hn1, hn2⟩ :=
    scanRetain_spec (nameMatches nm) (fun s x a => nameMatches_retain nm s (some x) a)
      s.space.atoms s hnd
  unfold atomspace_get_atoms_by_type atomspace_get_atoms_by_name
  refine ⟨ht1, ?_, ?_, ?_, hn1, ?_, ?_, ?_⟩
  · intro a
    rw [ht1]
    exact List.mem_filter
  · rw [ht1]
    exact List.filter_sublist _
  · intro a
    rw [ht2 a, ht1]
  · intro a
    rw [hn1]
    exact List.mem_filter
  · rw [hn1]
    exact List.filter_sublist _
  · intro a
    rw [hn2 a, hn1]

/-- Witness for C4 on the concrete two-Concept machine: `by_type Concept`
returns both handles in creation order [1, 3] and retains each once;
`by_name "TestConcept"` returns exactly [1]. -/
theorem atomspace_queries_spec_witness :
    (atomspace_get_atoms_by_type exStateAB AtomType.concept).1 =
      exStateAB.space.atoms.filter (typeMatches AtomType.concept exStateAB) ∧
    (∀ a, a ∈ (atomspace_get_atoms_by_type exStateAB AtomType.concept).1 ↔
      a ∈ exStateAB.space.atoms ∧ typeMatches AtomType.concept exStateAB a = true) ∧
    (atomspace_get_atoms_by_type exStateAB AtomType.concept).1.Sublist
      exStateAB.space.atoms ∧
    (∀ a, refCountOf (atomspace_get_atoms_by_type exStateAB AtomType.concept).2 a =
      if a ∈ (atomspace_get_atoms_by_type exStateAB AtomType.concept).1
      then (refCountOf exStateAB a).map (fun r => (r + 1) % 2 ^ 32)
      else refCountOf exStateAB a) ∧
    (atomspace_get_atoms_by_name exStateAB "TestConcept").1 =
      exStateAB.space.atoms.filter (nameMatches "TestConcept" exStateAB) ∧
    (∀ a, a ∈ (atomspace_get_atoms_by_name exStateAB "TestConcept").1 ↔
      a ∈ exStateAB.space.atoms ∧ nameMatches "TestConcept" exStateAB a = true) ∧
    (atomspace_get_atoms_by_name exStateAB "TestConcept").1.Sublist
      exStateAB.space.atoms ∧
    (∀ a, refCountOf (atomspace_get_atoms_by_name exStateAB "TestConcept").2 a =
      if a ∈ (atomspace_get_atoms_by_name exStateAB "TestConcept").1
      then (refCountOf exStateAB a).map (fun r => (r + 1) % 2 ^ 32)
      else refCountOf exStateAB a) :=
  atomspace_queries_spec exStateAB AtomType.concept "TestConcept" (by decide)

/-- C1: refuted on the source — `atom_release` on the link handle (address 5,
id 3, refcount 1) reclaims the handle, yet the lookup table still maps id 3 to
the freed address 5, and both targets' incoming arrays still contain the freed
address 5.  The claimed backlink removal and index removal never happen
(atomspace.c:181-197 only releases the outgoing targets and frees storage). -/
theorem atom_release_keeps_backlinks_and_index :
    idOf exStateABL 5 = some 3 ∧
    refCountOf exStateABL 5 = some 1 ∧
    handleOf exStateReleased 5 = none ∧
    atomspace_get_atom exStateReleased 3 = some 5 ∧
    incomingOf exStateReleased 1 = some [5] ∧
    incomingOf exStateReleased 3 = some [5] :=
  ⟨rfl, rfl, rfl, rfl, rfl, rfl⟩

/-- C2, counterexample: `atom_set_tv` stores the out-of-range pair
`(2, -1)` verbatim; the stored strength exceeds 1, the stored confidence is
negative, and the stored value differs from the spec-mandated clamped pair.
The function has return type `void`, so no InvalidArgument failure is
possible. -/
theorem atom_set_tv_no_clamp_counterexample :
    (atom_get_tv (atom_set_tv exStateA (some 1) 2 (-1)) (some 1)).1 =
      { strength := 2, confidence := -1 } ∧
    ¬ ((atom_get_tv (atom_set_tv exStateA (some 1) 2 (-1)) (some 1)).1.strength ≤ 1) ∧
    ¬ (0 ≤ (atom_get_tv (atom_set_tv exStateA (some 1) 2 (-1)) (some 1)).1.confidence) ∧
    (atom_get_tv (atom_set_tv exStateA (some 1) 2 (-1)) (some 1)).1 ≠
      { strength := clamp01_spec 2, confidence := clamp01_spec (-1) } := by
  decide

/-- C2 (amended): `atom_set_tv` performs no clamping and no range check; for
every live handle and every pair of rationals, the pair is stored and read
back verbatim, and the call signals nothing (its C return type is `void`). -/
theorem atom_set_tv_stores_unclamped (s : SysState) (h : Nat) (sv cv : ℚ)
    (hl : (atomOfHandle s h).isSome = true) :
    tvOf (atom_set_tv s (some h) sv cv) h = some { strength := sv, confidence := cv } ∧
    (atom_get_tv (atom_set_tv s (some h) sv cv) (some h)).1 =
      { strength := sv, confidence := cv } :=
  set_get_tv s h sv cv hl

/-- Witness for C2 (amended) at the concrete one-atom machine and the
out-of-range pair (2, -1). -/
theorem atom_set_tv_stores_unclamped_witness :
    tvOf (atom_set_tv exStateA (some 1) 2 (-1)) 1 =
      some { strength := 2, confidence := -1 } ∧
    (atom_get_tv (atom_set_tv exStateA (some 1) 2 (-1)) (some 1)).1 =
      { strength := 2, confidence := -1 } :=
  atom_set_tv_stores_unclamped exStateA 1 2 (-1) (by decide)

/-- C7: on a live handle, setting an in-range truth value and then reading it
back returns exactly the assigned pair, and setting an int16-range attention
triple and reading it back returns exactly the assigned triple. -/
theorem truth_attention_roundtrip (s : SysState) (h : Nat)
    (hl : (atomOfHandle s h).isSome = true)
    (sv cv : ℚ) (hs0 : 0 ≤ sv) (hs1 : sv ≤ 1) (hc0 : 0 ≤ cv) (hc1 : cv ≤ 1)
    (sti lti vlti : Int)
    (hsti : -(2 ^ 15) ≤ sti ∧ sti < 2 ^ 15)
    (hlti : -(2 ^ 15) ≤ lti ∧ lti < 2 ^ 15)
    (hvlti : -(2 ^ 15) ≤ vlti ∧ vlti < 2 ^ 15) :
    (atom_get_tv (atom_set_tv s (some h) sv cv) (some h)).1 =
      { strength := sv, confidence := cv } ∧
    (atom_get_av (atom_set_av s (some h) sti lti vlti) (some h)).1 =
      { sti := sti, lti := lti, vlti := vlti } :=
  ⟨(set_get_tv s h sv cv hl).2, (set_get_av s h sti lti vlti hl).2⟩

/-- Witness for C7: the spec's S3 values (100, 50, 25) and the in-range truth
pair (1, 0) on the concrete one-atom machine. -/
theorem truth_attention_roundtrip_witness :
    (atom_get_tv (atom_set_tv exStateA (some 1) 1 0) (some 1)).1 =
      { strength := 1, confidence := 0 } ∧
    (atom_get_av (atom_set_av exStateA (some 1) 100 50 25) (some 1)).1 =
      { sti := 100, lti := 50, vlti := 25 } :=
  truth_attention_roundtrip exStateA 1 (by decide) 1 0 (by decide) (by decide)
    (by decide) (by decide) 100 50 25 (by decide) (by decide) (by decide)

/-- C10: with a NULL handle, `atom_get_tv` returns (0.0, 0.0) and
`atom_get_av` returns (0, 0, 0), and neither call changes any state. -/
theorem get_tv_av_null (s : SysState) :
    atom_get_tv s none = ({ strength := 0, confidence := 0 }, s) ∧
    atom_get_av s none = ({ sti := 0, lti := 0, vlti := 0 }, s) :=
  ⟨rfl, rfl⟩

/-- C8: refuted on the source — `consensus_vote` is a TODO stub, so recording
an accept vote on a fresh Propose-phase record leaves the record completely
unchanged: the phase stays Propose (it does not become Accept) and no node id
is added to `voted_nodes`. -/
theorem consensus_vote_stub_noop :
    exConsensus.phase = ConsensusPhase.propose ∧
    exConsensus.voted_nodes = [] ∧
    (consensus_vote 2 exConsensus true).1 = exConsensus ∧
    (consensus_vote 2 exConsensus true).1.phase ≠ ConsensusPhase.accept ∧
    (consensus_vote 2 exConsensus true).1.voted_nodes = [] := by
  refine ⟨rfl, rfl, rfl, ?_, rfl⟩
  decide

/-- C6, counterexample: after sending data [10] at priority 0 and then data
[20] at priority 5, `message_queue_receive` delivers [10] — the earlier,
lower-priority message — because `msgrcv` is called with `msgtyp = 0`
(first-message order), not the claimed highest-priority-first order. -/
theorem message_queue_priority_counterexample :
    (message_queue_send exQueue [10] 0).1 = 0 ∧
    (message_queue_send (message_queue_send exQueue [10] 0).2 [20] 5).1 = 0 ∧
    (message_queue_receive
        (message_queue_send (message_queue_send exQueue [10] 0).2 [20] 5).2
        65536 100).1.2 = some ([10], 0) ∧
    (some ([10], (0 : Int)) : Option (List Nat × Int)) ≠ some ([20], 5) := by
  decide

/-- C6 (amended): delivery is FIFO irrespective of priority — `receive`
always dequeues the oldest message of the queue and reports its priority as
`mtype - 1`, and `send` appends at the tail with mtype `priority + 1`. -/
theorem message_queue_fifo (mq : MessageQueue) (mtype : Int) (data : List Nat)
    (rest : List (Int × List Nat)) (size : Nat) (timeout : Int)
    (hq : mq.msgs = (mtype, data) :: rest) (hsz : data.length ≤ size)
    (p : Int) (d : List Nat) (hp : 0 ≤ p) (hd : d.length ≤ mq.max_message_size) :
    (message_queue_receive mq size timeout).1 =
      ((data.length : Int), some (data, mtype - 1)) ∧
    (message_queue_receive mq size timeout).2.msgs = rest ∧
    (message_queue_send mq d p).1 = 0 ∧
    (message_queue_send mq d p).2.msgs = mq.msgs ++ [(p + 1, d)] := by
  have h1 : ¬ (data.length > size) := by omega
  have h2 : ¬ (d.length > mq.max_message_size) := by omega
  have h3 : ¬ (p + 1 ≤ 0) := by omega
  unfold message_queue_receive message_queue_send
  rw [hq]
  simp [h1, h2, h3]

/-- Witness for C6 (amended) on the concrete two-message queue. -/
theorem message_queue_fifo_witness :
    (message_queue_receive exQueueLoaded 10 0).1 =
      ((1 : Int), some ([7], 2)) ∧
    (message_queue_receive exQueueLoaded 10 0).2.msgs = [(1, [9])] ∧
    (message_queue_send exQueueLoaded [4] 2).1 = 0 ∧
    (message_queue_send exQueueLoaded [4] 2).2.msgs =
      exQueueLoaded.msgs ++ [(3, [4])] :=
  message_queue_fifo exQueueLoaded 3 [7] [(1, [9])] 10 0 rfl (by decide) 2 [4]
    (by decide) (by decide)

theorem heartbeatUpdate_not_mem (nodes : List NodeInfo) (src ts : Nat)
    (h : src ∉ nodes.map (fun n => n.node_id)) :
    heartbeatUpdate nodes src ts = nodes := by
  induction nodes with
  | nil => rfl
  | cons n rest ih =>
    simp only [List.map_cons, List.mem_cons] at h
    push_neg at h
    have hne : ¬ (n.node_id = src) := fun e => h.1 e.symm
    simp only [heartbeatUpdate, if_neg hne]
    rw [ih h.2]

theorem heartbeatUpdate_get? (nodes : List NodeInfo) (src ts : Nat)
    (hnd : (nodes.map (fun n => n.node_id)).Nodup) (i : Nat) :
    (heartbeatUpdate nodes src ts).get? i =
      (nodes.get? i).map (fun n =>
        if n.node_id = src then { n with last_heartbeat := ts, is_active := true }
        else n) := by
  induction nodes generalizing i with
  | nil => simp [heartbeatUpdate]
  | cons n rest ih =>
    simp only [List.map_cons, List.nodup_cons] at hnd
    by_cases hn : n.node_id = src
    · simp only [heartbeatUpdate, if_pos hn]
      cases i with
      | zero => simp [hn]
      | succ j =>
        simp only [List.get?_cons_succ]
        cases hj : rest.get? j with
        | none => simp
        | some m =>
          have hm : m ∈ rest := List.get?_mem hj
          have hne : ¬ (m.node_id = src) := by
            intro e
            exact hnd.1 (hn ▸ e ▸ List.mem_map_of_mem (fun x => x.node_id) hm)
          simp [hne]
    · simp only [heartbeatUpdate, if_neg hn]
      cases i with
      | zero => simp [hn]
      | succ j =>
        simp only [List.get?_cons_succ]
        exact ih hnd.2 j

/-- C9: a Heartbeat whose source id is absent from the node table changes
nothing, and on a duplicate-free table every entry whose id equals the source
gets `last_heartbeat := msg.timestamp` and `is_active := true` while every
other entry is untouched (order and length preserved, expressed per index). -/
theorem heartbeat_message_spec (nodes : List NodeInfo) (msg : Message)
    (ht : msg.type = MessageType.heartbeat) :
    (msg.source_node ∉ nodes.map (fun n => n.node_id) →
      message_handler_step nodes msg = nodes) ∧
    ((nodes.map (fun n => n.node_id)).Nodup →
      ∀ i, (message_handler_step nodes msg).get? i =
        (nodes.get? i).map (fun n =>
          if n.node_id = msg.source_node then
            { n with last_heartbeat := msg.timestamp, is_active := true }
          else n)) := by
  constructor
  · intro h
    unfold message_handler_step
    rw [ht]
    exact heartbeatUpdate_not_mem nodes msg.source_node msg.timestamp h
  · intro hnd i
    unfold message_handler_step
    rw [ht]
    exact heartbeatUpdate_get? nodes msg.source_node msg.timestamp hnd i

/-- Witness for C9: node 2's entry is updated in the table [node2, node3],
and a Heartbeat from the unknown node 7 leaves the table unchanged. -/
theorem heartbeat_message_spec_witness :
    (∀ i, (message_handler_step [exNodeA, exNodeB] exHeartbeat).get? i =
      ([exNodeA, exNodeB].get? i).map (fun n =>
        if n.node_id = exHeartbeat.source_node then
          { n with last_heartbeat := exHeartbeat.timestamp, is_active := true }
        else n)) ∧
    message_handler_step [exNodeA, exNodeB] exHeartbeatUnknown = [exNodeA, exNodeB] :=
  ⟨(heartbeat_message_spec [exNodeA, exNodeB] exHeartbeat rfl).2 (by decide),
   (heartbeat_message_spec [exNodeA, exNodeB] exHeartbeatUnknown rfl).1 (by decide)⟩

end OpencogCore
